import Mathlib

/-!
Verification of the agent-orchestration core of the Equifax-Agentic-AI-Screening
repository, as a shallow embedding of `src/mcp_server/context_manager.py`,
`src/mcp_server/orchestrator.py`, and `src/agents/base_ai_agent.py`.

Python dictionaries are modelled as insertion-ordered association lists
(`List (String x _)`) with dict-assignment semantics (update in place if the
key is present, append otherwise).  Wall-clock timestamps (`datetime.utcnow()`)
are modelled by a ghost `clock : Nat` threaded through the state; every claim
that mentions timestamps compares states after erasing them.  Exceptions are
modelled by an explicit `PyErr` value returned next to the post-state (Python
state mutations performed before an exception persist, so fallible operations
return both the error and the state).
-/

namespace Screening

/-- Python exceptions that the modelled code can raise. -/
inductive PyErr where
  | valueError (msg : String)
  | keyError (key : String)
  | typeError (msg : String)
  | agentException (msg : String)
  | recursionError
deriving DecidableEq

/-- `str(e)` of a modelled exception, as used by the orchestrator when it
builds an error result from a caught exception. -/
def PyErr.msg : PyErr → String
  | .valueError m => m
  | .keyError k => k
  | .typeError m => m
  | .agentException m => m
  | .recursionError => "maximum recursion depth exceeded"

/-- The `TypeError` Python raises when `await` is applied to a non-awaitable
value.  The source contains a half-finished async-to-sync refactor:
`ContextManager.get_context` and `create_context` are plain synchronous
`def`s, yet `get_agent_result` (context_manager.py:130),
`get_all_agent_results` (:150), `get_input_for_agent` (:176) and
`AgentOrchestrator.start_screening` (orchestrator.py:101) still `await`
them, so each of those call sites raises this error unconditionally. -/
def awaitTypeErrorMsg : String := "object can't be used in 'await' expression"

/-- Opaque stage-specific payload (the `data` dict a stage's `_run` returns).
Its internal structure is irrelevant to the orchestration core. -/
abbrev PayloadV := String

/-- Opaque initial application data (`initial_data`).  `create_context` also
copies the `applicant` / `employment` / `rental_history` / `additional_info`
sub-dicts to the top level of the context dict for convenience; those copies
are never read by any operation modelled here and are not modelled. -/
abbrev InitData := String

/-- Metadata block attached to an agent result by `BaseAIAgent.execute`. -/
structure ResultMeta where
  execution_time_ms : Option Nat := none
  model_used : Option String := none
  timestamp : Nat := 0
deriving DecidableEq

/-- An agent result dict as produced by `BaseAIAgent.execute` (success or
error shape) or by the orchestrator's error-result construction.  Absent dict
keys are `none`.  `status` is optional because `store_agent_result` accepts an
arbitrary dict and reads it with `result.get("status", "unknown")`. -/
structure AgentResult where
  status : Option String := none
  agent : Option String := none
  data : Option PayloadV := none
  error : Option String := none
  error_type : Option String := none
  error_code : Option String := none
  metadata : Option ResultMeta := none
deriving DecidableEq

/-- Association-list lookup, modelling Python `d.get(k)` / `d[k]`. -/
def alGet {α : Type} : List (String × α) → String → Option α
  | [], _ => none
  | (k, v) :: rest, key => if k = key then some v else alGet rest key

/-- Association-list assignment, modelling Python `d[k] = v`: replaces the
value in place when the key is present (keeping its position), appends
otherwise. -/
def alSet {α : Type} : List (String × α) → String → α → List (String × α)
  | [], key, v => [(key, v)]
  | (k, w) :: rest, key, v =>
      if k = key then (key, v) :: rest else (k, w) :: alSet rest key v

/-- Association-list deletion of the first matching key, modelling Python
`del d[k]` after the caller has checked presence. -/
def alErase {α : Type} : List (String × α) → String → List (String × α)
  | [], _ => []
  | (k, w) :: rest, key => if k = key then rest else (k, w) :: alErase rest key

theorem alGet_alSet {α : Type} (l : List (String × α)) (k n : String) (v : α) :
    alGet (alSet l k v) n = if k = n then some v else alGet l n := by
  induction l with
  | nil => by_cases h : k = n <;> simp [alSet, alGet, h]
  | cons hd tl ih =>
      obtain ⟨k', v'⟩ := hd
      by_cases h1 : k' = k
      · subst h1
        simp only [alSet, if_pos rfl]
        by_cases h2 : k' = n <;> simp [alGet, h2]
      · simp only [alSet, if_neg h1]
        by_cases h2 : k' = n
        · subst h2
          have hk : ¬ (k = k') := fun h => h1 h.symm
          simp [alGet, hk]
        · simp [alGet, h2, ih]

theorem alGet_not_mem {α : Type} (l : List (String × α)) (k : String)
    (h : k ∉ l.map Prod.fst) : alGet l k = none := by
  induction l with
  | nil => simp [alGet]
  | cons hd tl ih =>
      obtain ⟨k', v'⟩ := hd
      simp only [List.map_cons, List.mem_cons] at h
      push_neg at h
      have hne : ¬ (k' = k) := fun hh => h.1 hh.symm
      simp only [alGet, if_neg hne]
      exact ih h.2

theorem alGet_alErase_self {α : Type} (l : List (String × α)) (k : String)
    (hnd : (l.map Prod.fst).Nodup) : alGet (alErase l k) k = none := by
  induction l with
  | nil => simp [alErase, alGet]
  | cons hd tl ih =>
      obtain ⟨k', v'⟩ := hd
      simp only [List.map_cons, List.nodup_cons] at hnd
      by_cases h : k' = k
      · subst h
        simp only [alErase, if_pos rfl]
        exact alGet_not_mem tl k' hnd.1
      · simp only [alErase, if_neg h, alGet, if_neg h]
        exact ih hnd.2

/-- A stored agent-result record: `{"result": ..., "timestamp": ...}` as kept
in `context["agent_results"][agent_name]`. -/
structure StoredResult where
  result : AgentResult
  timestamp : Nat
deriving DecidableEq

/-- One entry of `context["metadata"]["agent_execution_order"]`. -/
structure OrderEntry where
  agent : String
  timestamp : Nat
  status : String
deriving DecidableEq

/-- One screening context dict, as built by `ContextManager.create_context`. -/
structure Ctx where
  screening_id : String
  created_at : Nat
  status : String
  updated_at : Option Nat := none
  initial_data : InitData
  agent_results : List (String × StoredResult)
  exec_order_log : List OrderEntry
  total_processing_time_ms : Nat := 0
deriving DecidableEq

/-- The two instance dicts of `ContextManager`: `self.contexts` and
`self._locks`.  Only the key set of `_locks` matters (the values are
`asyncio.Lock` objects), so `locks` holds the keys. -/
structure CMState where
  contexts : List (String × Ctx)
  locks : List String
deriving DecidableEq

/-- Full modelled state: the context-manager state plus a ghost clock that
stands for `datetime.utcnow()` and a ghost history of the successful status
writes `(screening_id, status)` performed by `update_status`. -/
structure St where
  cm : CMState
  clock : Nat
  history : List (String × String)
deriving DecidableEq

/-- The empty starting state (`ContextManager.__init__`: both dicts empty). -/
def initSt : St := { cm := { contexts := [], locks := [] }, clock := 0, history := [] }

/-- `ContextManager.create_context`: installs a fresh context dict with
status "initialized", empty result map and empty execution-order log.  It
never touches `_locks`. -/
def createContext (st : St) (screening_id : String) (initial_data : InitData) : St :=
  { st with
    cm := { st.cm with
      contexts := alSet st.cm.contexts screening_id
        { screening_id := screening_id
          created_at := st.clock
          status := "initialized"
          initial_data := initial_data
          agent_results := []
          exec_order_log := [] } }
    clock := st.clock + 1 }

/-- `ContextManager.update_status`: sets `status` and `updated_at` when the
screening exists, silently does nothing otherwise.  The
`self._locks.get(screening_id, asyncio.Lock())` acquisition has no effect in
this sequential model.  A successful write is recorded in the ghost history. -/
def updateStatus (st : St) (screening_id status : String) : St :=
  match alGet st.cm.contexts screening_id with
  | none => st
  | some c =>
      { st with
        cm := { st.cm with
          contexts := alSet st.cm.contexts screening_id
            { c with status := status, updated_at := some st.clock } }
        clock := st.clock + 1
        history := st.history ++ [(screening_id, status)] }

/-- The update `store_agent_result` performs on the context dict: assigns
`context["agent_results"][agent_name] = {"result": result, "timestamp": now}`
(dict assignment: a second write for the same agent name silently overwrites
the first) and appends an entry to `metadata["agent_execution_order"]`
recording `result.get("status", "unknown")`. -/
def storedCtx (c : Ctx) (agent_name : String) (result : AgentResult) (t : Nat) : Ctx :=
  { c with
    agent_results := alSet c.agent_results agent_name
      { result := result, timestamp := t }
    exec_order_log := c.exec_order_log ++
      [{ agent := agent_name, timestamp := t
         status := result.status.getD "unknown" }] }

/-- `ContextManager.store_agent_result`: raises `ValueError` on an unknown
screening id; otherwise performs the `storedCtx` update on the screening's
context.  The two `utcnow()` calls are modelled by the same ghost clock
value. -/
def storeAgentResult (st : St) (screening_id agent_name : String)
    (result : AgentResult) : Option PyErr × St :=
  match alGet st.cm.contexts screening_id with
  | none => (some (.valueError ("Unknown screening ID: " ++ screening_id)), st)
  | some c =>
      (none,
       { st with
         cm := { st.cm with
           contexts := alSet st.cm.contexts screening_id
             (storedCtx c agent_name result st.clock) }
         clock := st.clock + 1 })

/-- `ContextManager.get_context`: synchronous, returns the raw context dict
(or `None`). -/
def getContext (st : St) (screening_id : String) : Option Ctx :=
  alGet st.cm.contexts screening_id

/-- Direct read of a stored stage result from the store —
`contexts[id]["agent_results"][name]["result"]` — the value
`get_agent_result` is documented to return.  This is a pure observation
function on the modelled state, used to state properties; it is not the
async `get_agent_result` method, which never returns (see
`getAgentResult`). -/
def storedResultOf (st : St) (screening_id agent_name : String) : Option AgentResult :=
  match getContext st screening_id with
  | none => none
  | some c => (alGet c.agent_results agent_name).map (fun sr => sr.result)

/-- `ContextManager.get_agent_result`: its first statement is
`context = await self.get_context(screening_id)` — but `get_context` is
synchronous, so the `await` raises `TypeError` on every call
(context_manager.py:130) and the rest of the method body is unreachable. -/
def getAgentResult (st : St) (screening_id agent_name : String) :
    Except PyErr (Option AgentResult) :=
  .error (.typeError awaitTypeErrorMsg)

/-- `ContextManager.get_all_agent_results`: likewise raises `TypeError` at
`await self.get_context(...)` on every call (context_manager.py:150); the
result map is never returned. -/
def getAllAgentResults (st : St) (screening_id : String) :
    Except PyErr (List (String × AgentResult)) :=
  .error (.typeError awaitTypeErrorMsg)

/-- The input dict built by `get_input_for_agent`. -/
structure AgentInput where
  screening_id : String
  initial_data : InitData
  agent_results : List (String × AgentResult)
deriving DecidableEq

/-- The dependency-results loop of `get_input_for_agent`:
`for dep_agent in dependencies: ... if dep_result: agent_input["agent_results"][dep_agent] = dep_result`,
with each `dep_result = await self.get_agent_result(...)` taken as the
direct store read it is documented to perform (the real call raises
`TypeError` from its own broken await).  The Python truthiness test
`if dep_result:` coincides with presence here, because every result dict
stored through the orchestrator carries at least a `status` key and is
therefore non-empty. -/
def buildDepResults (st : St) (screening_id : String) :
    List String → List (String × AgentResult) → List (String × AgentResult)
  | [], acc => acc
  | dep :: rest, acc =>
      match storedResultOf st screening_id dep with
      | some r => buildDepResults st screening_id rest (alSet acc dep r)
      | none => buildDepResults st screening_id rest acc

/-- `ContextManager.get_input_for_agent` as it actually executes: its first
statement is `context = await self.get_context(screening_id)` on the
synchronous `get_context` (context_manager.py:176), which raises `TypeError`
on every call.  Neither the documented view nor even the `ValueError` branch
for an unknown screening id is ever reached. -/
def getInputForAgent (st : St) (screening_id agent_name : String)
    (dependencies : List String) : Except PyErr AgentInput :=
  .error (.typeError awaitTypeErrorMsg)

/-- The body of `get_input_for_agent` after its broken first `await`, i.e.
the view the method is documented to build (its docstring: "Input context
including initial data and dependency results"), with the stale awaits
repaired: `ValueError` on an unknown screening id, otherwise the screening
id, the initial data and the stored results of exactly the named
dependencies that have one.  Used to state what the claim asserts against
what the code does.  (The `agent_name` parameter is accepted and unused, as
in the source.) -/
def getInputForAgentView (st : St) (screening_id agent_name : String)
    (dependencies : List String) : Except PyErr AgentInput :=
  match getContext st screening_id with
  | none => .error (.valueError ("Unknown screening ID: " ++ screening_id))
  | some c =>
      .ok { screening_id := screening_id
            initial_data := c.initial_data
            agent_results := buildDepResults st screening_id dependencies [] }

/-- `ContextManager.cleanup_context`: when the screening exists, deletes it
from `contexts` and then executes `del self._locks[screening_id]`, which
raises `KeyError` when the id has no lock entry; the context deletion is not
rolled back in that case. -/
def cleanupContext (st : St) (screening_id : String) : Option PyErr × St :=
  match alGet st.cm.contexts screening_id with
  | none => (none, st)
  | some _ =>
      let st1 := { st with
        cm := { st.cm with contexts := alErase st.cm.contexts screening_id } }
      if screening_id ∈ st1.cm.locks then
        (none, { st1 with cm := { st1.cm with locks := st1.cm.locks.erase screening_id } })
      else
        (some (.keyError screening_id), st1)

/-- The registry part of `AgentOrchestrator`: the key list of `self.agents`
(the instances themselves are modelled separately by a `Behavior` function)
and the dict `self.agent_dependencies`. -/
structure Orch where
  agents : List String
  agent_dependencies : List (String × List String)
deriving DecidableEq

/-- `AgentOrchestrator.register_agent`: dict assignment into `self.agents`
and `self.agent_dependencies` (an existing key keeps its position; a new key
is appended). -/
def registerAgent (o : Orch) (agent_name : String) (dependencies : List String) : Orch :=
  { agents := if agent_name ∈ o.agents then o.agents else o.agents ++ [agent_name]
    agent_dependencies := alSet o.agent_dependencies agent_name dependencies }

/-- `self.agent_dependencies.get(agent_name, [])`. -/
def depsOf (o : Orch) (agent_name : String) : List String :=
  (alGet o.agent_dependencies agent_name).getD []

/-- State of the topological-sort traversal in `_determine_execution_order`:
the `visited` set (as a list) and the `order` list. -/
abbrev VisitSt := List String × List String

/-- Sequentially visit each name of a list with the same visiting function
(a `for` loop over names, threading the traversal state and propagating a
blown recursion budget). -/
def visitList (f : String → VisitSt → Option VisitSt) :
    List String → VisitSt → Option VisitSt
  | [], st => some st
  | d :: ds, st =>
      match f d st with
      | none => none
      | some st2 => visitList f ds st2

/-- The inner `visit` closure of `_determine_execution_order`.  `fuel` models
the Python call-stack depth available to `visit`: each nested recursive call
consumes one unit, and exhausting the budget models `RecursionError` (the
function has no cycle detection, so on a cyclic graph the recursion never
stops on its own).  Returns `none` exactly when the budget is exhausted.
Sibling calls in the `for dep ...` loop each start from the same remaining
budget, matching call-stack behaviour. -/
def visit (deps : String → List String) : Nat → String → VisitSt → Option VisitSt
  | 0, _, _ => none
  | fuel + 1, agent_name, st =>
      if agent_name ∈ st.1 then some st
      else
        match visitList (fun d s => visit deps fuel d s) (deps agent_name) st with
        | none => none
        | some st2 => some (agent_name :: st2.1, st2.2 ++ [agent_name])

/-- `AgentOrchestrator._determine_execution_order`: visits every key of
`self.agents` in registration order (each top-level call starting with the
full stack budget) and returns the flat order, or `none` when the
depth-first traversal exceeds the recursion budget (Python
`RecursionError`). -/
def determineExecutionOrder (o : Orch) (fuel : Nat) : Option (List String) :=
  (visitList (fun a s => visit (depsOf o) fuel a s) o.agents ([], [])).map
    (fun st => st.2)

/-- Possible outcomes of plan building.  The spec names the graph errors
`CyclicDependencyError` and `UnknownDependencyError`; those constructors are
included so that the spec's claims about them are statable, but the source
`_determine_execution_order` only ever yields `plan` or `recursionLimit`. -/
inductive PlanOutcome where
  | plan (order : List String)
  | recursionLimit
  | cyclicDependencyError
  | unknownDependencyError (name : String)
deriving DecidableEq

/-- `_determine_execution_order` with its two observable outcomes: a plan, or
an uncontrolled `RecursionError` once the recursion budget is exhausted. -/
def buildPlanResult (o : Orch) (fuel : Nat) : PlanOutcome :=
  match determineExecutionOrder o fuel with
  | some order => .plan order
  | none => .recursionLimit

/-- The error-result dict built in the `except` branch of
`AgentOrchestrator._execute_agent`:
`{"status": "error", "error": str(e), "agent": agent_name}`. -/
def orchErrorResult (agent_name msg : String) : AgentResult :=
  { status := some "error", error := some msg, agent := some agent_name }

/-- A stage implementation as the orchestrator sees it: `agent.execute`
either returns a result dict or raises (`.error msg`). -/
abbrev Behavior := String → AgentInput → Except String AgentResult

/-- The `except Exception` branch of `_execute_agent`: stores an error result
for the caught exception `e`, then re-raises `e`; if the store itself raises,
that exception propagates instead. -/
def handleAgentException (st : St) (screening_id agent_name : String) (e : PyErr) :
    Option PyErr × St :=
  match storeAgentResult st screening_id agent_name (orchErrorResult agent_name e.msg) with
  | (some e2, st2) => (some e2, st2)
  | (none, st2) => (some e, st2)

/-- `AgentOrchestrator._execute_agent`: looks the agent up (raising
`ValueError` when it is not registered), then builds its input via
`get_input_for_agent` — outside the `try` block, so any error there
propagates directly.  Since `get_input_for_agent` raises `TypeError` on
every call (orchestrator.py:179), the remainder of the body (the agent
invocation, the store, and the except-branch that stores an error result and
re-raises), transcribed below as in the source, is unreachable: a registered
agent's execution always ends at the input-building step, with the state
untouched. -/
def executeAgent (behavior : Behavior) (o : Orch) (screening_id agent_name : String)
    (st : St) : Option PyErr × St :=
  if agent_name ∈ o.agents then
    match getInputForAgent st screening_id agent_name (depsOf o agent_name) with
    | .error e => (some e, st)
    | .ok agent_input =>
        match behavior agent_name agent_input with
        | .ok result =>
            match storeAgentResult st screening_id agent_name result with
            | (none, st2) => (none, st2)
            | (some e, st2) => handleAgentException st2 screening_id agent_name e
        | .error msg => handleAgentException st screening_id agent_name (.agentException msg)
  else
    (some (.valueError ("Agent not found: " ++ agent_name)), st)

/-- The `for agent_name in execution_order:` loop of `_execute_screening`:
runs each agent in turn and stops at the first escaping exception. -/
def runAgents (behavior : Behavior) (o : Orch) (screening_id : String) :
    List String → St → Option PyErr × St
  | [], st => (none, st)
  | a :: rest, st =>
      match executeAgent behavior o screening_id a st with
      | (some e, st2) => (some e, st2)
      | (none, st2) => runAgents behavior o screening_id rest st2

/-- `AgentOrchestrator._execute_screening`: marks the screening
"processing", computes the execution order (a `RecursionError` there is
caught by the `except Exception` handler), runs the agents sequentially, and
on the first escaping exception marks "failed" and re-raises.  When the loop
finishes without an exception (only possible for an empty order, since every
`_execute_agent` call raises), the next statement
`all_results = await self.context_manager.get_all_agent_results(...)` raises
`TypeError` (orchestrator.py:132): the handler again marks "failed" and
re-raises.  The `final_result` construction and the "completed" status write
at orchestrator.py:136-150 are therefore dead code, and no run ever returns
a report. -/
def executeScreeningRun (behavior : Behavior) (o : Orch) (fuel : Nat)
    (screening_id : String) (st : St) : Option PyErr × St :=
  let st1 := updateStatus st screening_id "processing"
  match determineExecutionOrder o fuel with
  | none => (some .recursionError, updateStatus st1 screening_id "failed")
  | some execution_order =>
      match runAgents behavior o screening_id execution_order st1 with
      | (some e, st2) => (some e, updateStatus st2 screening_id "failed")
      | (none, st2) =>
          (some (.typeError awaitTypeErrorMsg), updateStatus st2 screening_id "failed")

/-- `AgentOrchestrator.start_screening`: executes
`await self.context_manager.create_context(screening_id, application_data)`.
`create_context` is synchronous, so the call itself runs (creating the
context with status "initialized") and returns `None`; awaiting `None` then
raises `TypeError` (orchestrator.py:101) before `asyncio.create_task` at
line 104 is reached.  The screening task is therefore never launched,
`_execute_screening` never runs for the screening, `active_screenings` is
never populated, and `wait_for_completion`'s timeout handler (the only
writer of a "timeout" status) is dead code — without a registered task,
`wait_for_completion` instead raises `TypeError` at
`await self.context_manager.get_context(...)` (orchestrator.py:269).
(The screening id is a uuid-based string, modelled as a parameter.) -/
def startScreening (st : St) (screening_id : String) (application_data : InitData) :
    Option PyErr × St :=
  (some (.typeError awaitTypeErrorMsg),
   createContext st screening_id application_data)

/-- The outcome of `BaseAIAgent._run` (and of the input validation that
precedes it): a payload, or a raised exception with its message and type
name. -/
inductive RunOutcome where
  | ok (payload : PayloadV)
  | exn (msg typeName : String)
deriving DecidableEq

/-- `BaseAIAgent.execute`: wraps `_validate_input` + `_run` in a catch-all.
A success yields `{"status": "success", "agent": ..., "data": result,
"metadata": {...}}`; any exception yields `{"status": "error", "agent": ...,
"error": str(e), "error_type": ..., "metadata": {...}}`.  Wall-clock values
are passed in as ghost parameters. -/
def baseAgentExecute (agent_name model : String) (has_llm : Bool)
    (run_outcome : RunOutcome) (start_time end_time : Nat) : AgentResult :=
  match run_outcome with
  | .ok payload =>
      { status := some "success"
        agent := some agent_name
        data := some payload
        metadata := some
          { execution_time_ms := some (end_time - start_time)
            model_used := some (if has_llm then model else "fallback")
            timestamp := end_time } }
  | .exn msg typeName =>
      { status := some "error"
        agent := some agent_name
        error := some msg
        error_type := some typeName
        metadata := some { timestamp := end_time } }

/-- `AgentOrchestrator._register_all_agents`: the concrete 8-stage graph the
source registers at construction time. -/
def defaultOrch : Orch :=
  registerAgent (registerAgent (registerAgent (registerAgent (registerAgent
    (registerAgent (registerAgent (registerAgent
      { agents := [], agent_dependencies := [] }
      "ingestion" [])
      "identity" [])
      "fraud" ["ingestion", "identity"])
      "risk" ["ingestion", "identity"])
      "decision" ["ingestion", "identity", "fraud", "risk"])
      "compliance" ["decision"])
      "bias" ["decision"])
      "audit" ["compliance", "bias", "decision"]

/-! ### Invariants of the depth-first visit -/

/-- Every element of the order has all its dependencies at strictly earlier
positions. -/
def DepsClosed (deps : String → List String) (l : List String) : Prop :=
  ∀ i (h : i < l.length), ∀ d ∈ deps (l.get ⟨i, h⟩), d ∈ l.take i

/-- Invariant of the traversal state: the visited set and the order hold the
same names, and the order is dependency-closed position by position. -/
def VisitInv (deps : String → List String) (st : VisitSt) : Prop :=
  (∀ x, x ∈ st.1 ↔ x ∈ st.2) ∧ DepsClosed deps st.2

theorem indexOf_lt_of_mem_take {l : List String} {d : String} :
    ∀ {i : Nat}, d ∈ l.take i → l.indexOf d < i := by
  induction l with
  | nil => intro i h; simp at h
  | cons x xs ih =>
      intro i h
      match i with
      | 0 => simp at h
      | j + 1 =>
          rw [List.take_succ_cons] at h
          rcases List.mem_cons.mp h with h1 | h2
          · subst h1
            simp [List.indexOf_cons_self]
          · by_cases hx : d = x
            · subst hx
              simp [List.indexOf_cons_self]
            · rw [List.indexOf_cons_ne _ (fun hh => hx hh.symm)]
              exact Nat.succ_lt_succ (ih h2)

/-- One visiting step is sound: it preserves the invariant, only grows the
state, completes its argument, and extends the order on the right. -/
def StepSound (deps : String → List String)
    (f : String → VisitSt → Option VisitSt) : Prop :=
  ∀ x st st', f x st = some st' → VisitInv deps st →
    VisitInv deps st' ∧ (∀ y ∈ st.1, y ∈ st'.1) ∧ x ∈ st'.1 ∧
      ∃ t, st'.2 = st.2 ++ t

theorem visitList_sound (deps : String → List String)
    (f : String → VisitSt → Option VisitSt) (hf : StepSound deps f) :
    ∀ ds st st', visitList f ds st = some st' → VisitInv deps st →
      VisitInv deps st' ∧ (∀ y ∈ st.1, y ∈ st'.1) ∧ (∀ d ∈ ds, d ∈ st'.1) ∧
        ∃ t, st'.2 = st.2 ++ t := by
  intro ds
  induction ds with
  | nil =>
      intro st st' h hinv
      simp only [visitList] at h
      cases h
      exact ⟨hinv, fun y hy => hy, by simp, [], by simp⟩
  | cons d rest ih =>
      intro st st' h hinv
      simp only [visitList] at h
      cases hm : f d st with
      | none => rw [hm] at h; cases h
      | some st2 =>
          rw [hm] at h
          obtain ⟨hinv2, hgrow2, hd2, t2, ht2⟩ := hf d st st2 hm hinv
          obtain ⟨hinv3, hgrow3, hds3, t3, ht3⟩ := ih st2 st' h hinv2
          refine ⟨hinv3, fun y hy => hgrow3 y (hgrow2 y hy), ?_, t2 ++ t3, ?_⟩
          · intro e he
            rcases List.mem_cons.mp he with h1 | h1
            · subst h1; exact hgrow3 e hd2
            · exact hds3 e h1
          · rw [ht3, ht2, List.append_assoc]

theorem visit_sound (deps : String → List String) :
    ∀ fuel, StepSound deps (fun x st => visit deps fuel x st) := by
  intro fuel
  induction fuel with
  | zero => intro x st st' h; simp [visit] at h
  | succ n ih =>
      intro x st st' h hinv
      simp only [visit] at h
      by_cases hx : x ∈ st.1
      · rw [if_pos hx] at h
        cases h
        exact ⟨hinv, fun y hy => hy, hx, [], by simp⟩
      · rw [if_neg hx] at h
        cases hm : visitList (fun d s => visit deps n d s) (deps x) st with
        | none => rw [hm] at h; cases h
        | some st2 =>
            rw [hm] at h
            cases h
            obtain ⟨⟨hperm2, hclosed2⟩, hgrow2, hdeps2, t2, ht2⟩ :=
              visitList_sound deps _ ih (deps x) st st2 hm hinv
            refine ⟨⟨?_, ?_⟩, ?_, ?_, ?_⟩
            · intro y
              constructor
              · intro h1
                rcases List.mem_cons.mp h1 with h2 | h2
                · subst h2
                  exact List.mem_append.mpr (Or.inr (List.mem_singleton.mpr rfl))
                · exact List.mem_append.mpr (Or.inl ((hperm2 y).mp h2))
              · intro h1
                rcases List.mem_append.mp h1 with h2 | h2
                · exact List.mem_cons_of_mem x ((hperm2 y).mpr h2)
                · exact List.mem_cons.mpr (Or.inl (List.mem_singleton.mp h2))
            · intro i hlen d hd
              simp only [List.length_append, List.length_singleton] at hlen
              by_cases hi : i < st2.2.length
              · have hget : (st2.2 ++ [x]).get ⟨i, by simpa using hlen⟩ =
                    st2.2.get ⟨i, hi⟩ := List.get_append i hi
                rw [hget] at hd
                have := hclosed2 i hi d hd
                rwa [List.take_append_of_le_length (Nat.le_of_lt hi)]
              · have hieq : i = st2.2.length := by omega
                subst hieq
                have hget : (st2.2 ++ [x]).get ⟨st2.2.length, by simp⟩ = x := by
                  simp
                rw [hget] at hd
                rw [List.take_append_of_le_length (Nat.le_refl _)]
                rw [List.take_length]
                exact (hperm2 d).mp (hdeps2 d hd)
            · intro y hy
              exact List.mem_cons_of_mem x (hgrow2 y hy)
            · exact List.mem_cons_self x st2.1
            · exact ⟨t2 ++ [x], by rw [ht2, List.append_assoc]⟩

theorem visit_total (deps : String → List String) (U : String → Prop) (r : String → Nat)
    (hU : ∀ u, U u → ∀ d ∈ deps u, U d)
    (hrank : ∀ u, U u → ∀ d ∈ deps u, r d < r u) :
    ∀ fuel x st, U x → r x < fuel → VisitInv deps st → st.2.Nodup →
      ∃ st', visit deps fuel x st = some st' ∧ VisitInv deps st' ∧ st'.2.Nodup ∧
        (∀ y ∈ st.1, y ∈ st'.1) ∧ x ∈ st'.1 ∧
        (∀ y ∈ st'.1, y ∈ st.1 ∨ (U y ∧ r y ≤ r x)) ∧ ∃ t, st'.2 = st.2 ++ t := by
  intro fuel
  induction fuel with
  | zero => intro x st hUx hr _ _; exact absurd hr (Nat.not_lt_zero _)
  | succ n ih =>
      have hlist : ∀ (B : Nat) (ds : List String) st,
          (∀ d ∈ ds, U d ∧ r d < n ∧ r d < B) → VisitInv deps st → st.2.Nodup →
          ∃ st', visitList (fun d s => visit deps n d s) ds st = some st' ∧
            VisitInv deps st' ∧ st'.2.Nodup ∧ (∀ y ∈ st.1, y ∈ st'.1) ∧
            (∀ d ∈ ds, d ∈ st'.1) ∧
            (∀ y ∈ st'.1, y ∈ st.1 ∨ (U y ∧ r y < B)) := by
        intro B ds
        induction ds with
        | nil =>
            intro st _ hinv hnd
            exact ⟨st, rfl, hinv, hnd, fun y hy => hy, by simp, fun y hy => Or.inl hy⟩
        | cons d rest ihd =>
            intro st hds hinv hnd
            obtain ⟨hUd, hrn, hrB⟩ := hds d (List.mem_cons_self d rest)
            obtain ⟨st2, heq2, hinv2, hnd2, hgrow2, hx2, hnew2, _⟩ :=
              ih d st hUd hrn hinv hnd
            obtain ⟨st3, heq3, hinv3, hnd3, hgrow3, hds3, hnew3⟩ :=
              ihd st2 (fun e he => hds e (List.mem_cons_of_mem d he)) hinv2 hnd2
            refine ⟨st3, ?_, hinv3, hnd3, fun y hy => hgrow3 y (hgrow2 y hy), ?_, ?_⟩
            · simp only [visitList, heq2]
              exact heq3
            · intro e he
              rcases List.mem_cons.mp he with h1 | h1
              · subst h1; exact hgrow3 e hx2
              · exact hds3 e h1
            · intro y hy
              rcases hnew3 y hy with h1 | h1
              · rcases hnew2 y h1 with h2 | h2
                · exact Or.inl h2
                · exact Or.inr ⟨h2.1, lt_of_le_of_lt h2.2 hrB⟩
              · exact Or.inr h1
      intro x st hUx hrx hinv hnd
      by_cases hx : x ∈ st.1
      · exact ⟨st, by simp [visit, hx], hinv, hnd, fun y hy => hy, hx,
          fun y hy => Or.inl hy, [], by simp⟩
      · have hds : ∀ d ∈ deps x, U d ∧ r d < n ∧ r d < r x := by
          intro d hd
          have h1 := hU x hUx d hd
          have h2 := hrank x hUx d hd
          exact ⟨h1, by omega, h2⟩
        obtain ⟨st2, heq2, hinv2, hnd2, hgrow2, hdeps2, hnew2⟩ :=
          hlist (r x) (deps x) st hds hinv hnd
        have heq : visit deps (n + 1) x st = some (x :: st2.1, st2.2 ++ [x]) := by
          simp only [visit, if_neg hx, heq2]
        obtain ⟨hinv', hgrow', hmem', happ'⟩ := visit_sound deps (n + 1) x st _ heq hinv
        have hxnot : x ∉ st2.2 := by
          intro hmem
          have hx1 := (hinv2.1 x).mpr hmem
          rcases hnew2 x hx1 with h1 | h1
          · exact hx h1
          · exact absurd h1.2 (lt_irrefl _)
        refine ⟨(x :: st2.1, st2.2 ++ [x]), heq, hinv', ?_, hgrow', hmem', ?_, happ'⟩
        · simp [List.nodup_append, hnd2, hxnot]
        · intro y hy
          rcases List.mem_cons.mp hy with h1 | h1
          · subst h1; exact Or.inr ⟨hUx, Nat.le_refl _⟩
          · rcases hnew2 y h1 with h2 | h2
            · exact Or.inl h2
            · exact Or.inr ⟨h2.1, Nat.le_of_lt h2.2⟩

theorem visitList_total (deps : String → List String) (U : String → Prop) (r : String → Nat)
    (hU : ∀ u, U u → ∀ d ∈ deps u, U d)
    (hrank : ∀ u, U u → ∀ d ∈ deps u, r d < r u) (fuel : Nat) :
    ∀ (ds : List String) st, (∀ d ∈ ds, U d ∧ r d < fuel) → VisitInv deps st →
      st.2.Nodup →
      ∃ st', visitList (fun d s => visit deps fuel d s) ds st = some st' ∧
        VisitInv deps st' ∧ st'.2.Nodup ∧ (∀ y ∈ st.1, y ∈ st'.1) ∧
        (∀ d ∈ ds, d ∈ st'.1) ∧ (∀ y ∈ st'.1, y ∈ st.1 ∨ U y) := by
  intro ds
  induction ds with
  | nil =>
      intro st _ hinv hnd
      exact ⟨st, rfl, hinv, hnd, fun y hy => hy, by simp, fun y hy => Or.inl hy⟩
  | cons d rest ihd =>
      intro st hds hinv hnd
      obtain ⟨hUd, hrn⟩ := hds d (List.mem_cons_self d rest)
      obtain ⟨st2, heq2, hinv2, hnd2, hgrow2, hx2, hnew2, _⟩ :=
        visit_total deps U r hU hrank fuel d st hUd hrn hinv hnd
      obtain ⟨st3, heq3, hinv3, hnd3, hgrow3, hds3, hnew3⟩ :=
        ihd st2 (fun e he => hds e (List.mem_cons_of_mem d he)) hinv2 hnd2
      refine ⟨st3, ?_, hinv3, hnd3, fun y hy => hgrow3 y (hgrow2 y hy), ?_, ?_⟩
      · simp only [visitList, heq2]
        exact heq3
      · intro e he
        rcases List.mem_cons.mp he with h1 | h1
        · subst h1; exact hgrow3 e hx2
        · exact hds3 e h1
      · intro y hy
        rcases hnew3 y hy with h1 | h1
        · rcases hnew2 y h1 with h2 | h2
          · exact Or.inl h2
          · exact Or.inr h2.1
        · exact Or.inr h1

theorem depsClosed_indexOf {deps : String → List String} {l : List String}
    (hc : DepsClosed deps l) (a : String) (ha : a ∈ l)
    (d : String) (hd : d ∈ deps a) : d ∈ l ∧ l.indexOf d < l.indexOf a := by
  have hlt : l.indexOf a < l.length := List.indexOf_lt_length.mpr ha
  have hget : l.get ⟨l.indexOf a, hlt⟩ = a := List.indexOf_get hlt
  have hmem := hc (l.indexOf a) hlt d (by rw [hget]; exact hd)
  exact ⟨List.mem_of_mem_take hmem, indexOf_lt_of_mem_take hmem⟩

/-- The empty traversal state satisfies the invariant. -/
theorem visitInv_empty (deps : String → List String) : VisitInv deps ([], []) :=
  ⟨fun _ => Iff.rfl, fun i h => absurd h (Nat.not_lt_zero i)⟩

/-- A rank function witnessing that the concrete 8-stage graph is acyclic. -/
def defaultRank (n : String) : Nat :=
  if n = "ingestion" then 0
  else if n = "identity" then 0
  else if n = "fraud" then 1
  else if n = "risk" then 1
  else if n = "decision" then 2
  else if n = "compliance" then 3
  else if n = "bias" then 3
  else 4

/-- A graph whose single stage "A" names itself as a dependency. -/
def oSelf : Orch := registerAgent { agents := [], agent_dependencies := [] } "A" ["A"]

/-- A graph whose single registered stage "X" depends on the never-registered
name "Y". -/
def oXY : Orch := registerAgent { agents := [], agent_dependencies := [] } "X" ["Y"]

/-- C1: for every acyclic stage graph (acyclicity witnessed by a rank
function strictly decreasing along dependencies) in which every listed
dependency is a registered stage, and any recursion budget above every rank,
`_determine_execution_order` returns an order in which every stage's
dependencies appear strictly before the stage itself, containing each
registered stage exactly once and nothing else. -/
theorem determineExecutionOrder_topological_correct (o : Orch) (r : String → Nat)
    (fuel : Nat)
    (hclosed : ∀ a ∈ o.agents, ∀ d ∈ depsOf o a, d ∈ o.agents)
    (hacyclic : ∀ a ∈ o.agents, ∀ d ∈ depsOf o a, r d < r a)
    (hfuel : ∀ a ∈ o.agents, r a < fuel) :
    ∃ order, determineExecutionOrder o fuel = some order ∧
      (∀ a ∈ o.agents, order.count a = 1) ∧
      (∀ a ∈ order, a ∈ o.agents) ∧
      (∀ a ∈ order, ∀ d ∈ depsOf o a, d ∈ order ∧
        order.indexOf d < order.indexOf a) := by
  obtain ⟨st', heq, hinv, hnd, _, hall, hnew⟩ :=
    visitList_total (depsOf o) (fun u => u ∈ o.agents) r hclosed hacyclic fuel
      o.agents ([], []) (fun d hd => ⟨hd, hfuel d hd⟩)
      (visitInv_empty (depsOf o)) (by simp)
  refine ⟨st'.2, ?_, ?_, ?_, ?_⟩
  · unfold determineExecutionOrder
    rw [heq]
    rfl
  · intro a ha
    exact List.count_eq_one_of_mem hnd ((hinv.1 a).mp (hall a ha))
  · intro a ha
    rcases hnew a ((hinv.1 a).mpr ha) with h1 | h1
    · simp at h1
    · exact h1
  · intro a ha d hd
    exact depsClosed_indexOf hinv.2 a ha d hd

/-- Witness for C1 at the concrete 8-stage graph the source registers. -/
theorem determineExecutionOrder_topological_correct_witness :
    ((∀ a ∈ defaultOrch.agents, ∀ d ∈ depsOf defaultOrch a, d ∈ defaultOrch.agents) ∧
     (∀ a ∈ defaultOrch.agents, ∀ d ∈ depsOf defaultOrch a, defaultRank d < defaultRank a) ∧
     (∀ a ∈ defaultOrch.agents, defaultRank a < 10)) ∧
    (∃ order, determineExecutionOrder defaultOrch 10 = some order ∧
      (∀ a ∈ defaultOrch.agents, order.count a = 1) ∧
      (∀ a ∈ order, a ∈ defaultOrch.agents) ∧
      (∀ a ∈ order, ∀ d ∈ depsOf defaultOrch a, d ∈ order ∧
        order.indexOf d < order.indexOf a)) :=
  ⟨⟨by decide, by decide, by decide⟩,
   determineExecutionOrder_topological_correct defaultOrch defaultRank 10
     (by decide) (by decide) (by decide)⟩

/-- C2 counterexample: on the self-dependent graph {"A" depends on "A"},
plan building does not raise `CyclicDependencyError`; it exhausts the
recursion budget (Python `RecursionError`). -/
theorem cyclic_graph_counterexample :
    buildPlanResult oSelf 50 = PlanOutcome.recursionLimit ∧
    buildPlanResult oSelf 50 ≠ PlanOutcome.cyclicDependencyError := by
  constructor
  · decide
  · decide

/-- C2 (amended): for every stage graph with a dependency cycle through a
registered stage (a self-dependency included), and for every recursion
budget, `_determine_execution_order` exhausts the budget — the uncontrolled
Python `RecursionError` — and produces no plan; the code defines no
`CyclicDependencyError` and never raises one. -/
theorem cyclic_graph_exhausts_recursion (o : Orch) (fuel : Nat)
    (hcyc : ∃ x ∈ o.agents, Relation.TransGen (fun u v => v ∈ depsOf o u) x x) :
    buildPlanResult o fuel = PlanOutcome.recursionLimit := by
  obtain ⟨x, hx, hpath⟩ := hcyc
  unfold buildPlanResult determineExecutionOrder
  cases heq : visitList (fun a s => visit (depsOf o) fuel a s) o.agents ([], []) with
  | none => rfl
  | some st' =>
      exfalso
      obtain ⟨hinv, _, hall, _⟩ :=
        visitList_sound (depsOf o) _ (visit_sound (depsOf o) fuel) o.agents
          ([], []) st' heq (visitInv_empty (depsOf o))
      have hxo : x ∈ st'.2 := (hinv.1 x).mp (hall x hx)
      have descend : ∀ u v, Relation.TransGen (fun u v => v ∈ depsOf o u) u v →
          u ∈ st'.2 → v ∈ st'.2 ∧ st'.2.indexOf v < st'.2.indexOf u := by
        intro u v hpath
        induction hpath with
        | single h => intro hu; exact depsClosed_indexOf hinv.2 u hu _ h
        | tail _ hbc ihab =>
            intro hu
            obtain ⟨hb, hlt⟩ := ihab hu
            obtain ⟨hc, hlt2⟩ := depsClosed_indexOf hinv.2 _ hb _ hbc
            exact ⟨hc, lt_trans hlt2 hlt⟩
      exact absurd (descend x x hpath hxo).2 (lt_irrefl _)

/-- Witness for the amended C2 at the self-dependent graph. -/
theorem cyclic_graph_exhausts_recursion_witness :
    (∃ x ∈ oSelf.agents, Relation.TransGen (fun u v => v ∈ depsOf oSelf u) x x) ∧
    buildPlanResult oSelf 50 = PlanOutcome.recursionLimit :=
  ⟨⟨"A", by decide, Relation.TransGen.single (by decide)⟩,
   cyclic_graph_exhausts_recursion oSelf 50
     ⟨"A", by decide, Relation.TransGen.single (by decide)⟩⟩

/-- C8 counterexample: with "X" registered to depend on the never-registered
"Y", plan building raises no `UnknownDependencyError` — it returns a plan,
and that plan even contains the unregistered name "Y". -/
theorem unknown_dependency_counterexample :
    determineExecutionOrder oXY 5 = some ["Y", "X"] ∧
    ("Y" ∉ oXY.agents) ∧
    buildPlanResult oXY 5 ≠ PlanOutcome.unknownDependencyError "Y" := by
  refine ⟨by decide, by decide, by decide⟩

/-- C8 (amended): when a registered stage lists a never-registered dependency
and plan building returns an order, no error is raised at plan time: the
unregistered name is silently included in the order (it is visited with an
empty dependency list).  The failure surfaces only at execution time, when
`_execute_agent` raises `ValueError("Agent not found: ...")` for it, leaving
the state unchanged. -/
theorem unknown_dependency_in_plan (o : Orch) (fuel : Nat) (a d : String)
    (order : List String)
    (ha : a ∈ o.agents) (hd : d ∈ depsOf o a) (hdna : d ∉ o.agents)
    (hplan : determineExecutionOrder o fuel = some order) :
    (buildPlanResult o fuel = PlanOutcome.plan order ∧ d ∈ order) ∧
    (∀ behavior screening_id st, executeAgent behavior o screening_id d st =
      (some (PyErr.valueError ("Agent not found: " ++ d)), st)) := by
  constructor
  · constructor
    · unfold buildPlanResult
      rw [hplan]
    · unfold determineExecutionOrder at hplan
      cases heq : visitList (fun a s => visit (depsOf o) fuel a s) o.agents ([], []) with
      | none => rw [heq] at hplan; cases hplan
      | some st' =>
          rw [heq] at hplan
          have horder : st'.2 = order := by
            simpa using hplan
          obtain ⟨hinv, _, hall, _⟩ :=
            visitList_sound (depsOf o) _ (visit_sound (depsOf o) fuel) o.agents
              ([], []) st' heq (visitInv_empty (depsOf o))
          have hao : a ∈ st'.2 := (hinv.1 a).mp (hall a ha)
          have := depsClosed_indexOf hinv.2 a hao d hd
          rw [horder] at this
          exact this.1
  · intro behavior screening_id st
    simp [executeAgent, hdna]

/-- Witness for the amended C8 at the graph {"X" depends on "Y"}. -/
theorem unknown_dependency_in_plan_witness :
    ("X" ∈ oXY.agents ∧ "Y" ∈ depsOf oXY "X" ∧ "Y" ∉ oXY.agents ∧
      determineExecutionOrder oXY 5 = some ["Y", "X"]) ∧
    ((buildPlanResult oXY 5 = PlanOutcome.plan ["Y", "X"] ∧ "Y" ∈ ["Y", "X"]) ∧
     (∀ behavior screening_id st, executeAgent behavior oXY screening_id "Y" st =
        (some (PyErr.valueError ("Agent not found: " ++ "Y")), st))) :=
  ⟨⟨by decide, by decide, by decide, by decide⟩,
   unknown_dependency_in_plan oXY 5 "X" "Y" ["Y", "X"]
     (by decide) (by decide) (by decide) (by decide)⟩

/-! ### Context-store claims -/

/-- A first concrete success result, used by counterexamples. -/
def resultOne : AgentResult :=
  { status := some "success", agent := some "A", data := some "one" }

/-- A second, different concrete success result. -/
def resultTwo : AgentResult :=
  { status := some "success", agent := some "A", data := some "two" }

/-- C4 counterexample: after creating a context and storing a result for
stage "A", a second `store_agent_result` for the same ("S", "A") pair raises
nothing (no `DuplicateWriteError`) and the stored result is the second one;
the first is silently overwritten. -/
theorem store_agent_result_duplicate_counterexample :
    (storeAgentResult (createContext initSt "S" "app") "S" "A" resultOne).1 = none ∧
    (storeAgentResult
      (storeAgentResult (createContext initSt "S" "app") "S" "A" resultOne).2
      "S" "A" resultTwo).1 = none ∧
    storedResultOf
      (storeAgentResult
        (storeAgentResult (createContext initSt "S" "app") "S" "A" resultOne).2
        "S" "A" resultTwo).2 "S" "A" = some resultTwo ∧
    some resultTwo ≠ some resultOne := by
  refine ⟨by decide, by decide, by decide, by decide⟩

/-- C4 (amended): for every existing screening context, a second
`store_agent_result` for the same (screeningId, stageName) pair raises no
error at all — the code defines no `DuplicateWriteError` — and silently
overwrites the first stored result with the second. -/
theorem store_agent_result_overwrites (st : St) (id a : String)
    (r1 r2 : AgentResult) (hctx : (alGet st.cm.contexts id).isSome) :
    (storeAgentResult st id a r1).1 = none ∧
    (storeAgentResult (storeAgentResult st id a r1).2 id a r2).1 = none ∧
    storedResultOf (storeAgentResult (storeAgentResult st id a r1).2 id a r2).2
      id a = some r2 := by
  obtain ⟨c, heq⟩ := Option.isSome_iff_exists.mp hctx
  refine ⟨?_, ?_, ?_⟩
  · simp [storeAgentResult, storedCtx, heq]
  · simp [storeAgentResult, storedCtx, heq, alGet_alSet]
  · simp [storeAgentResult, storedCtx, storedResultOf, getContext, heq, alGet_alSet]

/-- Witness for the amended C4 on a freshly created context. -/
theorem store_agent_result_overwrites_witness :
    (alGet (createContext initSt "S" "app").cm.contexts "S").isSome ∧
    ((storeAgentResult (createContext initSt "S" "app") "S" "A" resultOne).1 = none ∧
     (storeAgentResult
        (storeAgentResult (createContext initSt "S" "app") "S" "A" resultOne).2
        "S" "A" resultTwo).1 = none ∧
     storedResultOf
       (storeAgentResult
          (storeAgentResult (createContext initSt "S" "app") "S" "A" resultOne).2
          "S" "A" resultTwo).2 "S" "A" = some resultTwo) :=
  ⟨by decide,
   store_agent_result_overwrites (createContext initSt "S" "app") "S" "A"
     resultOne resultTwo (by decide)⟩

theorem buildDepResults_alGet (st : St) (id : String) :
    ∀ (ds : List String) (acc : List (String × AgentResult)) (n : String),
      alGet (buildDepResults st id ds acc) n =
        if n ∈ ds ∧ (storedResultOf st id n).isSome then storedResultOf st id n
        else alGet acc n := by
  intro ds
  induction ds with
  | nil => intro acc n; simp [buildDepResults]
  | cons d rest ih =>
      intro acc n
      simp only [buildDepResults]
      cases hres : storedResultOf st id d with
      | none =>
          rw [ih acc n]
          by_cases hmem : n ∈ rest ∧ (storedResultOf st id n).isSome
          · rw [if_pos hmem, if_pos ⟨List.mem_cons_of_mem d hmem.1, hmem.2⟩]
          · rw [if_neg hmem]
            by_cases hdn : n = d
            · subst hdn
              rw [if_neg]
              intro hcontra
              rw [hres] at hcontra
              simp at hcontra
            · rw [if_neg]
              intro hcontra
              rcases List.mem_cons.mp hcontra.1 with h1 | h1
              · exact hdn h1
              · exact hmem ⟨h1, hcontra.2⟩
      | some r =>
          rw [ih _ n]
          by_cases hmem : n ∈ rest ∧ (storedResultOf st id n).isSome
          · rw [if_pos hmem, if_pos ⟨List.mem_cons_of_mem d hmem.1, hmem.2⟩]
          · rw [if_neg hmem, alGet_alSet]
            by_cases hdn : d = n
            · subst hdn
              rw [if_pos rfl, if_pos ⟨List.mem_cons_self d rest, by rw [hres]; rfl⟩]
              exact hres.symm
            · rw [if_neg hdn]
              rw [if_neg]
              intro hcontra
              rcases List.mem_cons.mp hcontra.1 with h1 | h1
              · exact hdn h1.symm
              · exact hmem ⟨h1, hcontra.2⟩

/-- C5 (code bug): `get_input_for_agent` is documented ("Returns: Input
context including initial data and dependency results") to return the view
the claim describes, and the view its body builds — after the stale awaits
of the half-finished sync refactor are repaired — does exactly that: the
screening id, the initial input, and the stored results of exactly the
named dependencies, with an absent dependency omitted and no non-dependency
included.  But the method's first statement awaits the synchronous
`get_context`, so every real call raises `TypeError` and never returns any
view at all. -/
theorem get_input_for_agent_exact (st : St) (id an : String)
    (dependencies : List String) (c : Ctx)
    (hctx : alGet st.cm.contexts id = some c) :
    getInputForAgent st id an dependencies =
      .error (.typeError awaitTypeErrorMsg) ∧
    (∃ inp, getInputForAgentView st id an dependencies = .ok inp ∧
      inp.screening_id = id ∧
      inp.initial_data = c.initial_data ∧
      (∀ n ∈ dependencies, alGet inp.agent_results n = storedResultOf st id n) ∧
      (∀ n, n ∉ dependencies → alGet inp.agent_results n = none)) := by
  refine ⟨rfl, ?_⟩
  refine ⟨{ screening_id := id, initial_data := c.initial_data,
            agent_results := buildDepResults st id dependencies [] },
          by simp [getInputForAgentView, getContext, hctx], rfl, rfl, ?_, ?_⟩
  · intro n hn
    rw [buildDepResults_alGet]
    by_cases hs : (storedResultOf st id n).isSome
    · rw [if_pos ⟨hn, hs⟩]
    · rw [if_neg (fun h => hs h.2)]
      simp only [alGet]
      cases hres : storedResultOf st id n with
      | none => rfl
      | some r => rw [hres] at hs; simp at hs
  · intro n hn
    rw [buildDepResults_alGet]
    rw [if_neg (fun h => hn h.1)]
    rfl

/-- The state used by witnesses: a fresh context "S" with one stored result
for stage "A". -/
def stW : St := (storeAgentResult (createContext initSt "S" "app") "S" "A" resultOne).2

/-- The context dict held in `stW`. -/
def witnessCtx : Ctx :=
  { screening_id := "S", created_at := 0, status := "initialized",
    initial_data := "app",
    agent_results := [("A", { result := resultOne, timestamp := 1 })],
    exec_order_log := [{ agent := "A", timestamp := 1, status := "success" }] }

/-- Witness for C5: the real call raises `TypeError`; the repaired view with
dependency list ["A", "B"] yields exactly A's stored result, nothing for the
absent "B", and nothing for any non-dependency. -/
theorem get_input_for_agent_exact_witness :
    (alGet stW.cm.contexts "S" = some witnessCtx) ∧
    (getInputForAgent stW "S" "fraud" ["A", "B"] =
      .error (.typeError awaitTypeErrorMsg) ∧
    (∃ inp, getInputForAgentView stW "S" "fraud" ["A", "B"] = .ok inp ∧
      inp.screening_id = "S" ∧
      inp.initial_data = witnessCtx.initial_data ∧
      (∀ n ∈ ["A", "B"], alGet inp.agent_results n = storedResultOf stW "S" n) ∧
      (∀ n, n ∉ ["A", "B"] → alGet inp.agent_results n = none))) :=
  ⟨by decide,
   get_input_for_agent_exact stW "S" "fraud" ["A", "B"] witnessCtx (by decide)⟩

/-- C7: every result dict a stage execution produces — the success and error
shapes of `BaseAIAgent.execute`, and the error result the orchestrator's
`_execute_agent` builds for a caught exception — satisfies: status "error"
implies no `data` payload and a present `error` description, and status
"success" implies a present `data` payload and no `error` description. -/
theorem stage_result_status_invariant :
    (∀ (agent_name model : String) (has_llm : Bool) (run_outcome : RunOutcome)
        (start_time end_time : Nat),
      ((baseAgentExecute agent_name model has_llm run_outcome start_time end_time).status =
          some "error" →
        (baseAgentExecute agent_name model has_llm run_outcome start_time end_time).data =
          none ∧
        (baseAgentExecute agent_name model has_llm run_outcome start_time end_time).error.isSome) ∧
      ((baseAgentExecute agent_name model has_llm run_outcome start_time end_time).status =
          some "success" →
        (baseAgentExecute agent_name model has_llm run_outcome start_time end_time).data.isSome ∧
        (baseAgentExecute agent_name model has_llm run_outcome start_time end_time).error =
          none)) ∧
    (∀ agent_name msg : String,
      (orchErrorResult agent_name msg).status = some "error" ∧
      (orchErrorResult agent_name msg).data = none ∧
      (orchErrorResult agent_name msg).error.isSome) := by
  constructor
  · intro agent_name model has_llm run_outcome start_time end_time
    cases run_outcome <;> simp [baseAgentExecute]
  · intro agent_name msg
    simp [orchErrorResult]

/-- The public mutating operations of `ContextManager`, through which the
orchestrator performs every write to the store. -/
inductive CMOp where
  | create (screening_id : String) (initial_data : InitData)
  | update (screening_id status : String)
  | store (screening_id agent_name : String) (result : AgentResult)
  | cleanup (screening_id : String)

/-- Apply one context-manager operation (keeping the post-state of a raising
operation, as Python does). -/
def applyOp (st : St) : CMOp → St
  | .create screening_id d => createContext st screening_id d
  | .update screening_id s => updateStatus st screening_id s
  | .store screening_id a r => (storeAgentResult st screening_id a r).2
  | .cleanup screening_id => (cleanupContext st screening_id).2

/-- Apply a sequence of context-manager operations. -/
def applyOps : List CMOp → St → St
  | [], st => st
  | op :: rest, st => applyOps rest (applyOp st op)

/-- No context-manager operation ever inserts an entry into `_locks`. -/
theorem applyOps_locks_empty :
    ∀ (ops : List CMOp) (st : St), st.cm.locks = [] →
      (applyOps ops st).cm.locks = [] := by
  intro ops
  induction ops with
  | nil => intro st h; exact h
  | cons op rest ih =>
      intro st h
      refine ih _ ?_
      cases op with
      | create screening_id d => simpa [applyOp, createContext] using h
      | update screening_id s =>
          simp only [applyOp, updateStatus]
          cases alGet st.cm.contexts screening_id <;> simpa using h
      | store screening_id a r =>
          simp only [applyOp, storeAgentResult]
          cases alGet st.cm.contexts screening_id <;> simpa using h
      | cleanup screening_id =>
          simp only [applyOp, cleanupContext]
          cases alGet st.cm.contexts screening_id with
          | none => simpa using h
          | some c =>
              simp only [h]
              simpa using h

theorem mem_alSet_keys {α : Type} (l : List (String × α)) (k k' : String) (v : α)
    (h : k' ∈ (alSet l k v).map Prod.fst) : k' = k ∨ k' ∈ l.map Prod.fst := by
  induction l with
  | nil => exact Or.inl (by simpa [alSet] using h)
  | cons hd tl ih =>
      obtain ⟨k2, v2⟩ := hd
      by_cases he : k2 = k
      · simp only [alSet, he, if_true, eq_self_iff_true, List.map_cons,
          List.mem_cons] at h
        rcases h with h1 | h1
        · exact Or.inl h1
        · exact Or.inr (List.mem_cons_of_mem _ h1)
      · simp only [alSet, if_neg he, List.map_cons, List.mem_cons] at h
        rcases h with h1 | h1
        · exact Or.inr (List.mem_cons.mpr (Or.inl h1))
        · rcases ih h1 with h2 | h2
          · exact Or.inl h2
          · exact Or.inr (List.mem_cons_of_mem _ h2)

theorem mem_alErase_keys {α : Type} (l : List (String × α)) (k k' : String)
    (h : k' ∈ (alErase l k).map Prod.fst) : k' ∈ l.map Prod.fst := by
  induction l with
  | nil => simpa [alErase] using h
  | cons hd tl ih =>
      obtain ⟨k2, v2⟩ := hd
      by_cases he : k2 = k
      · subst he
        simp only [alErase, if_pos rfl] at h
        exact List.mem_cons_of_mem _ h
      · simp only [alErase, if_neg he, List.map_cons, List.mem_cons] at h ⊢
        rcases h with h1 | h1
        · exact Or.inl h1
        · exact Or.inr (ih h1)

theorem alSet_keys_nodup {α : Type} (l : List (String × α)) (k : String) (v : α)
    (h : (l.map Prod.fst).Nodup) : ((alSet l k v).map Prod.fst).Nodup := by
  induction l with
  | nil => simp [alSet]
  | cons hd tl ih =>
      obtain ⟨k', v'⟩ := hd
      simp only [List.map_cons, List.nodup_cons] at h
      by_cases he : k' = k
      · subst he
        simp only [alSet, eq_self_iff_true, if_true, List.map_cons,
          List.nodup_cons]
        exact h
      · simp only [alSet, if_neg he, List.map_cons, List.nodup_cons]
        refine ⟨?_, ih h.2⟩
        intro hmem
        rcases mem_alSet_keys tl k k' v hmem with h1 | h1
        · exact he h1
        · exact h.1 h1

theorem alErase_keys_nodup {α : Type} (l : List (String × α)) (k : String)
    (h : (l.map Prod.fst).Nodup) : ((alErase l k).map Prod.fst).Nodup := by
  induction l with
  | nil => simp [alErase]
  | cons hd tl ih =>
      obtain ⟨k', v'⟩ := hd
      simp only [List.map_cons, List.nodup_cons] at h
      by_cases he : k' = k
      · subst he
        simp only [alErase, if_pos rfl]
        exact h.2
      · simp only [alErase, if_neg he, List.map_cons, List.nodup_cons]
        exact ⟨fun hmem => h.1 (mem_alErase_keys tl k k' hmem), ih h.2⟩

/-- The context dict never holds two entries for the same screening id. -/
theorem applyOps_contexts_nodup :
    ∀ (ops : List CMOp) (st : St), (st.cm.contexts.map Prod.fst).Nodup →
      ((applyOps ops st).cm.contexts.map Prod.fst).Nodup := by
  intro ops
  induction ops with
  | nil => intro st h; exact h
  | cons op rest ih =>
      intro st h
      refine ih _ ?_
      cases op with
      | create screening_id d =>
          simpa [applyOp, createContext] using alSet_keys_nodup _ _ _ h
      | update screening_id s =>
          simp only [applyOp, updateStatus]
          cases alGet st.cm.contexts screening_id with
          | none => exact h
          | some c => simpa using alSet_keys_nodup _ _ _ h
      | store screening_id a r =>
          simp only [applyOp, storeAgentResult]
          cases alGet st.cm.contexts screening_id with
          | none => exact h
          | some c => simpa using alSet_keys_nodup _ _ _ h
      | cleanup screening_id =>
          simp only [applyOp, cleanupContext]
          cases alGet st.cm.contexts screening_id with
          | none => exact h
          | some c =>
              by_cases hl : screening_id ∈ ({ st with
                  cm := { st.cm with
                    contexts := alErase st.cm.contexts screening_id } }).cm.locks
              · simp only [if_pos hl]
                simpa using alErase_keys_nodup _ _ h
              · simp only [if_neg hl]
                simpa using alErase_keys_nodup _ _ h

/-- C10: for every screening id present in a store reached from the initial
state by any sequence of context-manager operations, `cleanup_context`
deletes the context and then raises `KeyError` (the `_locks` dict is
necessarily empty, since no operation ever inserts into it), and the
deletion is not rolled back: the context is gone from the post-state. -/
theorem cleanup_context_keyerror (ops : List CMOp) (screening_id : String)
    (hctx : (alGet (applyOps ops initSt).cm.contexts screening_id).isSome) :
    (applyOps ops initSt).cm.locks = [] ∧
    (cleanupContext (applyOps ops initSt) screening_id).1 =
      some (PyErr.keyError screening_id) ∧
    alGet (cleanupContext (applyOps ops initSt) screening_id).2.cm.contexts
      screening_id = none := by
  have hlocks : (applyOps ops initSt).cm.locks = [] :=
    applyOps_locks_empty ops initSt rfl
  have hnd : ((applyOps ops initSt).cm.contexts.map Prod.fst).Nodup :=
    applyOps_contexts_nodup ops initSt (by simp [initSt])
  obtain ⟨c, heq⟩ := Option.isSome_iff_exists.mp hctx
  refine ⟨hlocks, ?_, ?_⟩
  · simp [cleanupContext, heq, hlocks]
  · simp only [cleanupContext, heq, hlocks]
    simpa using alGet_alErase_self _ _ hnd

/-- Witness for C10: create a context "S", then clean it up — `KeyError`,
with the context already deleted. -/
theorem cleanup_context_keyerror_witness :
    (alGet (applyOps [CMOp.create "S" "app"] initSt).cm.contexts "S").isSome ∧
    ((applyOps [CMOp.create "S" "app"] initSt).cm.locks = [] ∧
     (cleanupContext (applyOps [CMOp.create "S" "app"] initSt) "S").1 =
       some (PyErr.keyError "S") ∧
     alGet (cleanupContext (applyOps [CMOp.create "S" "app"] initSt) "S").2.cm.contexts
       "S" = none) :=
  ⟨by decide, cleanup_context_keyerror [CMOp.create "S" "app"] "S" (by decide)⟩

/-! ### Properties of a single run -/

/-- The status field of a screening's context, if present. -/
def statusOf (st : St) (screening_id : String) : Option String :=
  (alGet st.cm.contexts screening_id).map (fun c => c.status)

theorem updateStatus_preserves (st : St) (sid s' : String) (id' : String) :
    ((alGet (updateStatus st sid s').cm.contexts id').isSome =
      (alGet st.cm.contexts id').isSome) ∧
    (storedResultOf (updateStatus st sid s') id' = storedResultOf st id') ∧
    ((alGet (updateStatus st sid s').cm.contexts id').map (fun c => c.initial_data) =
      (alGet st.cm.contexts id').map (fun c => c.initial_data)) := by
  cases heq : alGet st.cm.contexts sid with
  | none =>
      have hEA : updateStatus st sid s' = st := by
        simp [updateStatus, heq]
      rw [hEA]
      exact ⟨rfl, rfl, rfl⟩
  | some c =>
      have halg : ∀ id', alGet (updateStatus st sid s').cm.contexts id' =
          if sid = id' then
            some { c with status := s', updated_at := some st.clock }
          else alGet st.cm.contexts id' := by
        intro id'
        simp [updateStatus, heq, alGet_alSet]
      refine ⟨?_, ?_, ?_⟩
      · rw [halg id']
        by_cases h : sid = id'
        · subst h; simp [heq]
        · simp [if_neg h]
      · funext x
        simp only [storedResultOf, getContext, halg id']
        by_cases h : sid = id'
        · subst h; simp [heq]
        · simp [if_neg h]
      · rw [halg id']
        by_cases h : sid = id'
        · subst h; simp [heq]
        · simp [if_neg h]

theorem updateStatus_status_self (st : St) (sid s' : String)
    (h : (alGet st.cm.contexts sid).isSome) :
    statusOf (updateStatus st sid s') sid = some s' := by
  obtain ⟨c, heq⟩ := Option.isSome_iff_exists.mp h
  simp [updateStatus, statusOf, heq, alGet_alSet]

theorem updateStatus_history (st : St) (sid s' : String)
    (h : (alGet st.cm.contexts sid).isSome) :
    (updateStatus st sid s').history = st.history ++ [(sid, s')] := by
  obtain ⟨c, heq⟩ := Option.isSome_iff_exists.mp h
  simp [updateStatus, heq]

/-- `_execute_agent` never mutates the state and always raises: a registered
agent dies with `TypeError` while its input is built (before the `try`), an
unregistered one with `ValueError` at the lookup. -/
theorem executeAgent_state (behavior : Behavior) (o : Orch)
    (screening_id agent_name : String) (st : St) :
    (executeAgent behavior o screening_id agent_name st).2 = st ∧
    (executeAgent behavior o screening_id agent_name st).1.isSome := by
  by_cases hreg : agent_name ∈ o.agents
  · simp [executeAgent, if_pos hreg, getInputForAgent]
  · simp [executeAgent, if_neg hreg]

/-- For a registered agent, `_execute_agent` returns exactly the input-building
`TypeError`, with the state untouched. -/
theorem executeAgent_registered_typeerror (behavior : Behavior) (o : Orch)
    (screening_id agent_name : String) (st : St) (hreg : agent_name ∈ o.agents) :
    executeAgent behavior o screening_id agent_name st =
      (some (PyErr.typeError awaitTypeErrorMsg), st) := by
  simp [executeAgent, if_pos hreg, getInputForAgent]

/-- The agent loop leaves the state untouched and raises exactly when the
list is non-empty (its first agent always raises). -/
theorem runAgents_state (behavior : Behavior) (o : Orch) (screening_id : String)
    (l : List String) (st : St) :
    (runAgents behavior o screening_id l st).2 = st ∧
    ((runAgents behavior o screening_id l st).1.isSome ↔ l ≠ []) := by
  cases l with
  | nil => simp [runAgents]
  | cons a rest =>
      cases hE : executeAgent behavior o screening_id a st with
      | mk e1 st2 =>
          have hS := executeAgent_state behavior o screening_id a st
          rw [hE] at hS
          obtain ⟨h2, h1⟩ := hS
          cases e1 with
          | none => simp at h1
          | some e =>
              simp only [runAgents, hE]
              exact ⟨h2, by simp⟩

/-- The two-stage dependency-free graph used by concrete run scenarios. -/
def oTwo : Orch :=
  registerAgent (registerAgent { agents := [], agent_dependencies := [] } "x" []) "y" []

/-- A concrete stage behaviour ("x" would raise, others succeed).  With the
broken input building no stage is ever invoked, so its values are never
consulted; it serves as an arbitrary concrete `Behavior`. -/
def behFail : Behavior := fun name _ =>
  if name = "x" then .error "boom" else .ok resultTwo

/-- C3 counterexample: on a run with registered stages "x" and "y", the
screening aborts with the input-building `TypeError`: the exception
propagates out of `_execute_screening` (which marks the screening "failed"),
**no** result — not even an error result — is stored for the failing stage
"x", and the other stage "y" never executes and has no recorded result
either. -/
theorem stage_exception_counterexample :
    (executeScreeningRun behFail oTwo 5 "S" (createContext initSt "S" "app")).1 =
      some (PyErr.typeError awaitTypeErrorMsg) ∧
    storedResultOf (executeScreeningRun behFail oTwo 5 "S"
      (createContext initSt "S" "app")).2 "S" "x" = none ∧
    storedResultOf (executeScreeningRun behFail oTwo 5 "S"
      (createContext initSt "S" "app")).2 "S" "y" = none ∧
    statusOf (executeScreeningRun behFail oTwo 5 "S"
      (createContext initSt "S" "app")).2 "S" = some "failed" := by
  refine ⟨by decide, by decide, by decide, by decide⟩

/-- C3 (amended): a stage's own exception can never be converted into a
stored error result, because `_execute_agent` raises `TypeError` while
building the stage's input (awaiting the synchronous `get_context`, outside
the `try`) before the stage ever runs: the run aborts at the first stage of
the plan, nothing is stored for any stage, the screening is marked "failed",
the `TypeError` propagates out of `_execute_screening`, and no later stage
executes. -/
theorem stage_input_typeerror_aborts_run
    (behavior : Behavior) (o : Orch) (fuel : Nat) (screening_id : String)
    (st : St) (s : String) (rest : List String)
    (hplan : determineExecutionOrder o fuel = some (s :: rest))
    (hreg : s ∈ o.agents)
    (hctx : (alGet st.cm.contexts screening_id).isSome) :
    executeScreeningRun behavior o fuel screening_id st =
      (some (PyErr.typeError awaitTypeErrorMsg),
       updateStatus (updateStatus st screening_id "processing")
         screening_id "failed") ∧
    statusOf (updateStatus (updateStatus st screening_id "processing")
      screening_id "failed") screening_id = some "failed" ∧
    (∀ x, storedResultOf (updateStatus (updateStatus st screening_id "processing")
      screening_id "failed") screening_id x = storedResultOf st screening_id x) := by
  have hctx1 : (alGet (updateStatus st screening_id "processing").cm.contexts
      screening_id).isSome := by
    rw [(updateStatus_preserves st screening_id "processing" screening_id).1]
    exact hctx
  have hEA := executeAgent_registered_typeerror behavior o screening_id s
    (updateStatus st screening_id "processing") hreg
  refine ⟨?_, ?_, ?_⟩
  · have hrun : runAgents behavior o screening_id (s :: rest)
        (updateStatus st screening_id "processing") =
        (some (PyErr.typeError awaitTypeErrorMsg),
         updateStatus st screening_id "processing") := by
      simp only [runAgents, hEA]
    simp only [executeScreeningRun, hplan, hrun]
  · exact updateStatus_status_self _ screening_id "failed" hctx1
  · intro x
    rw [congrFun (updateStatus_preserves _ screening_id "failed" screening_id).2.1 x]
    rw [congrFun (updateStatus_preserves st screening_id "processing" screening_id).2.1 x]

/-- Witness for the amended C3 on the two-stage graph. -/
theorem stage_input_typeerror_aborts_run_witness :
    (determineExecutionOrder oTwo 5 = some ("x" :: ["y"]) ∧
     "x" ∈ oTwo.agents ∧
     (alGet (createContext initSt "S" "app").cm.contexts "S").isSome) ∧
    (executeScreeningRun behFail oTwo 5 "S" (createContext initSt "S" "app") =
      (some (PyErr.typeError awaitTypeErrorMsg),
       updateStatus (updateStatus (createContext initSt "S" "app") "S" "processing")
         "S" "failed") ∧
    statusOf (updateStatus (updateStatus (createContext initSt "S" "app") "S" "processing")
      "S" "failed") "S" = some "failed" ∧
    (∀ x, storedResultOf (updateStatus (updateStatus (createContext initSt "S" "app")
      "S" "processing") "S" "failed") "S" x =
      storedResultOf (createContext initSt "S" "app") "S" x)) :=
  ⟨⟨by decide, by decide, by decide⟩,
   stage_input_typeerror_aborts_run behFail oTwo 5 "S"
     (createContext initSt "S" "app") "x" ["y"]
     (by decide) (by decide) (by decide)⟩

/-- C6: executing two stages with no dependency relation in either
sequential order yields the same final context state (and the same — absent
— final report): in this code degenerately so, because `_execute_agent`
raises before any store (`TypeError` at input building for a registered
stage, `ValueError` for an unregistered one), so neither order mutates the
context store at all; both runs abort at their first stage with the store
exactly as it was, and no report is produced in either order. -/
theorem independent_stages_commute
    (behavior : Behavior) (o : Orch) (screening_id a b : String) (st : St)
    (hab : a ≠ b) (hadep : a ∉ depsOf o b) (hbdep : b ∉ depsOf o a) :
    (runAgents behavior o screening_id [a, b] st).2 =
      (runAgents behavior o screening_id [b, a] st).2 ∧
    (runAgents behavior o screening_id [a, b] st).2 = st ∧
    (runAgents behavior o screening_id [a, b] st).1.isSome ∧
    (runAgents behavior o screening_id [b, a] st).1.isSome := by
  have h1 := runAgents_state behavior o screening_id [a, b] st
  have h2 := runAgents_state behavior o screening_id [b, a] st
  refine ⟨h1.1.trans h2.1.symm, h1.1, h1.2.mpr (by simp), h2.2.mpr (by simp)⟩

/-- Witness for C6 on the two independent stages "x" and "y". -/
theorem independent_stages_commute_witness :
    ("x" ≠ "y" ∧ "x" ∉ depsOf oTwo "y" ∧ "y" ∉ depsOf oTwo "x") ∧
    ((runAgents behFail oTwo "S" ["x", "y"] (createContext initSt "S" "app")).2 =
      (runAgents behFail oTwo "S" ["y", "x"] (createContext initSt "S" "app")).2 ∧
    (runAgents behFail oTwo "S" ["x", "y"] (createContext initSt "S" "app")).2 =
      createContext initSt "S" "app" ∧
    (runAgents behFail oTwo "S" ["x", "y"] (createContext initSt "S" "app")).1.isSome ∧
    (runAgents behFail oTwo "S" ["y", "x"] (createContext initSt "S" "app")).1.isSome) :=
  ⟨⟨by decide, by decide, by decide⟩,
   independent_stages_commute behFail oTwo "S" "x" "y"
     (createContext initSt "S" "app") (by decide) (by decide) (by decide)⟩

/-- C9 counterexample: `start_screening` creates the context (status
"initialized" = CREATED) and then raises `TypeError` before launching the
screening task, so the driven lifecycle ends right there: the ghost history
records no status write at all — the screening never reaches "processing"
(RUNNING), let alone "completed" or "failed", contradicting the claimed
CREATED → RUNNING → terminal progression. -/
theorem screening_lifecycle_counterexample :
    (startScreening initSt "S" "app").1 =
      some (PyErr.typeError awaitTypeErrorMsg) ∧
    statusOf (startScreening initSt "S" "app").2 "S" = some "initialized" ∧
    (startScreening initSt "S" "app").2.history = [] := by
  refine ⟨by decide, by decide, by decide⟩

/-- C9 (amended): a screening driven from `start_screening` never leaves
CREATED: the context is created with status "initialized", then the stale
`await` on the synchronous `create_context` raises `TypeError` before
`asyncio.create_task`, so the screening task is never launched and no status
write ever happens (the ghost history is unchanged); `wait_for_completion`'s
"timeout" writer is dead code since no task is ever registered.  Moreover,
even `_execute_screening` itself — were it ever invoked on an existing
context — always terminates raising, with status "failed": every stage of a
non-empty plan raises at input building, and an empty plan still dies at the
`get_all_agent_results` await, so "completed" is unreachable. -/
theorem screening_never_leaves_created
    (st0 : St) (screening_id : String) (application_data : InitData)
    (behavior : Behavior) (o : Orch) (fuel : Nat) (st : St)
    (hctx : (alGet st.cm.contexts screening_id).isSome) :
    ((startScreening st0 screening_id application_data).1 =
        some (PyErr.typeError awaitTypeErrorMsg) ∧
      statusOf (startScreening st0 screening_id application_data).2 screening_id =
        some "initialized" ∧
      (startScreening st0 screening_id application_data).2.history = st0.history) ∧
    ((executeScreeningRun behavior o fuel screening_id st).1.isSome ∧
      statusOf (executeScreeningRun behavior o fuel screening_id st).2 screening_id =
        some "failed") := by
  have hctx1 : (alGet (updateStatus st screening_id "processing").cm.contexts
      screening_id).isSome := by
    rw [(updateStatus_preserves st screening_id "processing" screening_id).1]
    exact hctx
  refine ⟨⟨rfl, ?_, rfl⟩, ?_⟩
  · simp [startScreening, createContext, statusOf, alGet_alSet]
  · cases hplan : determineExecutionOrder o fuel with
    | none =>
        have hEQ : executeScreeningRun behavior o fuel screening_id st =
            (some .recursionError,
             updateStatus (updateStatus st screening_id "processing")
               screening_id "failed") := by
          simp only [executeScreeningRun, hplan]
        rw [hEQ]
        exact ⟨rfl, updateStatus_status_self _ screening_id "failed" hctx1⟩
    | some execution_order =>
        cases hr : runAgents behavior o screening_id execution_order
            (updateStatus st screening_id "processing") with
        | mk e2 st2 =>
            have hS := runAgents_state behavior o screening_id execution_order
              (updateStatus st screening_id "processing")
            rw [hr] at hS
            have hst2 : st2 = updateStatus st screening_id "processing" := hS.1
            cases e2 with
            | some e =>
                have hEQ : executeScreeningRun behavior o fuel screening_id st =
                    (some e, updateStatus st2 screening_id "failed") := by
                  simp only [executeScreeningRun, hplan, hr]
                rw [hEQ]
                refine ⟨rfl, ?_⟩
                refine updateStatus_status_self _ screening_id "failed" ?_
                rw [hst2]
                exact hctx1
            | none =>
                have hEQ : executeScreeningRun behavior o fuel screening_id st =
                    (some (.typeError awaitTypeErrorMsg),
                     updateStatus st2 screening_id "failed") := by
                  simp only [executeScreeningRun, hplan, hr]
                rw [hEQ]
                refine ⟨rfl, ?_⟩
                refine updateStatus_status_self _ screening_id "failed" ?_
                rw [hst2]
                exact hctx1

/-- Witness for the amended C9 with a concrete started screening. -/
theorem screening_never_leaves_created_witness :
    (alGet (createContext initSt "S" "app").cm.contexts "S").isSome ∧
    (((startScreening initSt "S" "app").1 =
        some (PyErr.typeError awaitTypeErrorMsg) ∧
      statusOf (startScreening initSt "S" "app").2 "S" = some "initialized" ∧
      (startScreening initSt "S" "app").2.history = initSt.history) ∧
    ((executeScreeningRun behFail oTwo 5 "S" (createContext initSt "S" "app")).1.isSome ∧
      statusOf (executeScreeningRun behFail oTwo 5 "S"
        (createContext initSt "S" "app")).2 "S" = some "failed")) :=
  ⟨by decide,
   screening_never_leaves_created initSt "S" "app" behFail oTwo 5
     (createContext initSt "S" "app") (by decide)⟩

end Screening
